import Mathlib

/-!
Verification of the DMR voice relay server core (src/dmr_server.c) against its
natural-language specification.

The shallow embedding below translates the session registry, the frame codec,
the relay fan-out and the run-loop datagram handling into pure Lean functions.
Machine bytes are `Nat` with explicit `% 256` where the C code stores into a
`uint8`; the C `time_t` values are `Int`; the global `clients[DMR_MAX_CLIENTS]`
array is a list of fixed length `DMR_MAX_CLIENTS`; the global `client_count`
(a C `int`) is an `Int`.  Reads past the end of a received datagram (the code
parses 8 header bytes although only `DMR_HEADER_SIZE = 6` are checked) and
uninitialized payload bytes are modelled as zero, as the specification directs
for test determinism.  Calls into the database layer (dmr_db.c) are modelled by
an oracle `lookup : Nat → Option String` for `dmr_db_get_callsign` and by an
explicit event trace for the logging calls.
-/

namespace DmrServer

/-- DMR_HEADER_SIZE from dmr_server.h. -/
def DMR_HEADER_SIZE : Nat := 6

/-- DMR_PAYLOAD_SIZE from dmr_server.h. -/
def DMR_PAYLOAD_SIZE : Nat := 27

/-- DMR_MAX_CLIENTS from dmr_server.h. -/
def DMR_MAX_CLIENTS : Nat := 100

/-- A network endpoint: the (IPv4 address, UDP port) pair used as session key
(`sin_addr.s_addr`, `sin_port` in the C code). -/
structure Endpoint where
  ip : Nat
  port : Nat
deriving DecidableEq, Repr

/-- dmr_frame_t: decoded frame header fields plus the fixed-size payload. -/
structure DmrFrame where
  type : Nat
  slot : Nat
  src_id : Nat
  dst_id : Nat
  payload : List Nat
deriving DecidableEq, Repr

/-- dmr_client_t: one slot of the global `clients` array. -/
structure DmrClient where
  addr : Endpoint
  last_seen : Int
  dmr_id : Nat
  active : Bool
  callsign : String
deriving DecidableEq, Repr

/-- The configuration fields the registry core consults
(`server_config.timeout`, `server_config.db.enabled`). -/
structure Config where
  timeout : Int
  db_enabled : Bool
deriving DecidableEq, Repr

/-- Events emitted towards the Persistence Sink (dmr_db_log_client,
dmr_db_log_frame) and the Directory (dmr_db_get_callsign attempts). -/
inductive DbEvent where
  | connect (addr : Endpoint) (dmr_id : Nat)
  | disconnect (addr : Endpoint) (dmr_id : Nat)
  | timeout (addr : Endpoint) (dmr_id : Nat)
  | logFrame (src : Endpoint)
  | dirLookup (id : Nat)
deriving DecidableEq, Repr

/-- The mutable server state: the `clients` array and the `client_count`
counter (dmr_server.c lines 13-14). -/
structure ServerState where
  clients : List DmrClient
  client_count : Int
deriving DecidableEq, Repr

/-! ## Frame codec -/

/-- Read byte `i` of a received datagram; bytes past the datagram's length are
modelled as zero (the specification's zero-fill reading of the buffer). -/
def byteAt (bs : List Nat) (i : Nat) : Nat := bs.getD i 0

/-- The frame parse in dmr_server_run (lines 137-149): fails when fewer than
`DMR_HEADER_SIZE` bytes were read; otherwise reads type, slot, the big-endian
24-bit src_id from bytes 2-4 and dst_id from bytes 5-7, and copies
`min (len - 6) 27` payload bytes starting at offset `DMR_HEADER_SIZE = 6`,
the remaining payload bytes being zero. -/
def decodeFrame (bs : List Nat) : Option DmrFrame :=
  if DMR_HEADER_SIZE ≤ bs.length then
    let payload_size := min (bs.length - DMR_HEADER_SIZE) DMR_PAYLOAD_SIZE
    some
      { type := byteAt bs 0
        slot := byteAt bs 1
        src_id := byteAt bs 2 * 65536 + byteAt bs 3 * 256 + byteAt bs 4
        dst_id := byteAt bs 5 * 65536 + byteAt bs 6 * 256 + byteAt bs 7
        payload := (List.range DMR_PAYLOAD_SIZE).map fun j =>
          if j < payload_size then byteAt bs (DMR_HEADER_SIZE + j) else 0 }
  else none

/-- The buffer built by dmr_relay_frame (lines 241-253): eight header bytes are
written (each store truncating to a uint8), then `memcpy(buffer + 6, payload, 27)`
overwrites everything from offset `DMR_HEADER_SIZE = 6` on, so the sent buffer
is the first six header bytes followed by the 27 payload bytes
(`buffer_size = DMR_HEADER_SIZE + DMR_PAYLOAD_SIZE`). -/
def encodeFrame (f : DmrFrame) : List Nat :=
  let header : List Nat :=
    [f.type % 256, f.slot % 256,
     f.src_id / 65536 % 256, f.src_id / 256 % 256, f.src_id % 256,
     f.dst_id / 65536 % 256, f.dst_id / 256 % 256, f.dst_id % 256]
  header.take DMR_HEADER_SIZE ++
    (List.range DMR_PAYLOAD_SIZE).map fun j => f.payload.getD j 0

/-! ## Session registry -/

/-- The endpoints of the active sessions, in array order: the registry's
snapshot of who is connected. -/
def activeEndpoints (cs : List DmrClient) : List Endpoint :=
  (cs.filter (·.active)).map (·.addr)

/-- Number of array slots whose `active` flag is set. -/
def countActive (cs : List DmrClient) : Nat :=
  (cs.filter (·.active)).length

/-- The lookup loop of dmr_process_frame (lines 181-206) and
dmr_remove_client: first active client whose address and port match. -/
def findActiveClient (addr : Endpoint) : List DmrClient → Option DmrClient
  | [] => none
  | c :: rest =>
    if c.active ∧ c.addr = addr then some c else findActiveClient addr rest

/-- The client slot written by dmr_add_client (lines 293-303). -/
def freshClient (addr : Endpoint) (now : Int) (dmr_id : Nat)
    (callsign : Option String) : DmrClient :=
  { addr := addr, last_seen := now, dmr_id := dmr_id, active := true,
    callsign := callsign.getD "" }

/-- The slot-search loop of dmr_add_client (lines 290-323): find the first
inactive slot and overwrite it with the new client; `none` when every slot is
active. -/
def addClientAux (addr : Endpoint) (now : Int) (dmr_id : Nat)
    (callsign : Option String) : List DmrClient → Option (List DmrClient)
  | [] => none
  | c :: rest =>
    if c.active then (addClientAux addr now dmr_id callsign rest).map (c :: ·)
    else some (freshClient addr now dmr_id callsign :: rest)

/-- dmr_add_client (lines 286-327): insert into the first free slot,
increment `client_count`, log a connect event, return 0; at capacity return -1
leaving the state unchanged. -/
def dmr_add_client (cfg : Config) (addr : Endpoint) (dmr_id : Nat)
    (callsign : Option String) (now : Int) (s : ServerState) :
    ServerState × Int × List DbEvent :=
  match addClientAux addr now dmr_id callsign s.clients with
  | some cs =>
    ({ clients := cs, client_count := s.client_count + 1 }, 0,
     if cfg.db_enabled then [DbEvent.connect addr dmr_id] else [])
  | none => (s, -1, [])

/-- The removal loop of dmr_remove_client (lines 333-363): clear the `active`
flag of the first active client matching the endpoint, also returning the
client record that was logged. -/
def removeClientAux (addr : Endpoint) :
    List DmrClient → Option (List DmrClient × DmrClient)
  | [] => none
  | c :: rest =>
    if c.active ∧ c.addr = addr then some ({ c with active := false } :: rest, c)
    else (removeClientAux addr rest).map fun p => (c :: p.1, p.2)

/-- dmr_remove_client (lines 330-366): deactivate the matching session,
decrement `client_count`, log disconnect and timeout events, return 0; return
-1 with nothing changed when no session matches. -/
def dmr_remove_client (cfg : Config) (addr : Endpoint) (s : ServerState) :
    ServerState × Int × List DbEvent :=
  match removeClientAux addr s.clients with
  | some (cs, c) =>
    ({ clients := cs, client_count := s.client_count - 1 }, 0,
     if cfg.db_enabled then
       [DbEvent.disconnect c.addr c.dmr_id, DbEvent.timeout c.addr c.dmr_id]
     else [])
  | none => (s, -1, [])

/-- The per-slot test of dmr_cleanup_clients (line 374): an active client idle
strictly longer than the timeout is evicted. -/
def evictable (now timeout : Int) (c : DmrClient) : Bool :=
  c.active && decide (now - c.last_seen > timeout)

/-- One slot of the dmr_cleanup_clients pass: clear `active` when evictable,
leave the slot alone otherwise. -/
def evictStep (now timeout : Int) (c : DmrClient) : DmrClient :=
  if evictable now timeout c then { c with active := false } else c

/-- dmr_cleanup_clients (lines 369-394): one pass over the array clearing the
`active` flag of every evictable client, decrementing `client_count` once per
eviction and logging a timeout event for each. -/
def dmr_cleanup_clients (cfg : Config) (now : Int) (s : ServerState) :
    ServerState × List DbEvent :=
  ({ clients := s.clients.map (evictStep now cfg.timeout),
     client_count :=
       s.client_count - ((s.clients.filter (evictable now cfg.timeout)).length : Int) },
   if cfg.db_enabled then
     (s.clients.filter (evictable now cfg.timeout)).map fun c =>
       DbEvent.timeout c.addr c.dmr_id
   else [])

/-- The per-client update block of dmr_process_frame (lines 186-201): update
`last_seen`; when the client's `dmr_id` is still 0 and the frame carries a
non-zero src_id, assign the id and (when the database is enabled) attempt the
Directory (callsign) lookup, `strncpy` truncating the callsign to 9
characters.  Returns the updated client and the Directory-lookup events. -/
def touchedClient (cfg : Config) (lookup : Nat → Option String) (f : DmrFrame)
    (now : Int) (c : DmrClient) : DmrClient × List DbEvent :=
  if c.dmr_id = 0 ∧ f.src_id ≠ 0 then
    if cfg.db_enabled then
      match lookup f.src_id with
      | some cs =>
        ({ c with last_seen := now, dmr_id := f.src_id, callsign := cs.take 9 },
         [DbEvent.dirLookup f.src_id])
      | none =>
        ({ c with last_seen := now, dmr_id := f.src_id },
         [DbEvent.dirLookup f.src_id])
    else ({ c with last_seen := now, dmr_id := f.src_id }, [])
  else ({ c with last_seen := now }, [])

/-- The lookup-and-update loop of dmr_process_frame (lines 181-206): apply
`touchedClient` to the first active client matching the endpoint; `none` when
no client matches (the `client_found` flag stays false). -/
def touchClient (cfg : Config) (lookup : Nat → Option String) (f : DmrFrame)
    (addr : Endpoint) (now : Int) :
    List DmrClient → Option (List DmrClient × List DbEvent)
  | [] => none
  | c :: rest =>
    if c.active ∧ c.addr = addr then
      some ((touchedClient cfg lookup f now c).1 :: rest,
        (touchedClient cfg lookup f now c).2)
    else
      match touchClient cfg lookup f addr now rest with
      | some (rest2, evs) => some (c :: rest2, evs)
      | none => none

/-- dmr_process_frame (lines 176-233): touch (and possibly identify) the
sender's session, or register a new session via dmr_add_client when none
matches (the add's return code is discarded); finally log the frame. -/
def dmr_process_frame (cfg : Config) (lookup : Nat → Option String)
    (f : DmrFrame) (addr : Endpoint) (now : Int) (s : ServerState) :
    ServerState × List DbEvent :=
  match touchClient cfg lookup f addr now s.clients with
  | some (cs, evs) =>
    ({ s with clients := cs },
     evs ++ if cfg.db_enabled then [DbEvent.logFrame addr] else [])
  | none =>
    ((dmr_add_client cfg addr f.src_id none now s).1,
     (dmr_add_client cfg addr f.src_id none now s).2.2 ++
       if cfg.db_enabled then [DbEvent.logFrame addr] else [])

/-- The fan-out loop of dmr_relay_frame (lines 256-280): every active client
except those matching the sender's endpoint receives the frame. -/
def relayTargets (exclude : Endpoint) (cs : List DmrClient) : List Endpoint :=
  (cs.filter fun c => c.active && c.addr != exclude).map (·.addr)

/-- dmr_relay_frame (lines 236-283): the list of sends performed, each target
endpoint paired with the encoded 33-byte buffer. -/
def dmr_relay_frame (f : DmrFrame) (exclude : Endpoint) (s : ServerState) :
    List (Endpoint × List Nat) :=
  (relayTargets exclude s.clients).map fun a => (a, encodeFrame f)

/-- dmr_server_init (lines 39-41): every slot of the clients array inactive,
`client_count` zero. -/
def dmr_server_init : ServerState :=
  { clients := List.replicate DMR_MAX_CLIENTS
      { addr := ⟨0, 0⟩, last_seen := 0, dmr_id := 0, active := false,
        callsign := "" },
    client_count := 0 }

/-- One iteration of the receive loop of dmr_server_run (lines 132-156) on a
received datagram: when at least `DMR_HEADER_SIZE` bytes arrived, parse the
frame, run dmr_process_frame and then (unconditionally) dmr_relay_frame
against the updated registry; shorter datagrams are dropped entirely.
Returns the new state, the relay sends and the database events. -/
def handleDatagram (cfg : Config) (lookup : Nat → Option String)
    (bs : List Nat) (src : Endpoint) (now : Int) (s : ServerState) :
    ServerState × List (Endpoint × List Nat) × List DbEvent :=
  match decodeFrame bs with
  | none => (s, [], [])
  | some f =>
    ((dmr_process_frame cfg lookup f src now s).1,
     dmr_relay_frame f src (dmr_process_frame cfg lookup f src now s).1,
     (dmr_process_frame cfg lookup f src now s).2)

/-! ## Operation sequences and invariants -/

/-- Well-formedness of the server state: the clients array has its fixed
size, `client_count` agrees with the number of active slots, and no two
active slots share an endpoint.  These are the reachable-state invariants of
dmr_server.c's globals. -/
def Wf (s : ServerState) : Prop :=
  s.clients.length = DMR_MAX_CLIENTS ∧
  s.client_count = (countActive s.clients : Int) ∧
  (activeEndpoints s.clients).Nodup

/-- The operations the running server performs against the registry: handling
one received datagram (dmr_process_frame followed by dmr_relay_frame, which
registers new endpoints internally — dmr_add_client's only call site is
dmr_process_frame line 210), explicit removal (dmr_remove_client) and the
periodic eviction pass (dmr_cleanup_clients). -/
inductive ServerOp where
  | datagram (bs : List Nat) (src : Endpoint) (now : Int)
  | removal (addr : Endpoint)
  | cleanup (now : Int)

/-- Apply one server operation to the state. -/
def applyServerOp (cfg : Config) (lookup : Nat → Option String)
    (s : ServerState) : ServerOp → ServerState
  | .datagram bs src now => (handleDatagram cfg lookup bs src now s).1
  | .removal addr => (dmr_remove_client cfg addr s).1
  | .cleanup now => (dmr_cleanup_clients cfg now s).1

/-- Run a sequence of server operations from the initialized state. -/
def runServer (cfg : Config) (lookup : Nat → Option String)
    (ops : List ServerOp) : ServerState :=
  ops.foldl (applyServerOp cfg lookup) dmr_server_init

/-- Raw registry operations: dmr_add_client, dmr_remove_client and
dmr_cleanup_clients called directly. -/
inductive RegistryOp where
  | add (addr : Endpoint) (dmr_id : Nat) (callsign : Option String) (now : Int)
  | removal (addr : Endpoint)
  | cleanup (now : Int)

/-- Apply one raw registry operation to the state. -/
def applyRegistryOp (cfg : Config) (s : ServerState) : RegistryOp → ServerState
  | .add addr dmr_id callsign now => (dmr_add_client cfg addr dmr_id callsign now s).1
  | .removal addr => (dmr_remove_client cfg addr s).1
  | .cleanup now => (dmr_cleanup_clients cfg now s).1

/-- Run a sequence of raw registry operations from the initialized state. -/
def runRegistry (cfg : Config) (ops : List RegistryOp) : ServerState :=
  ops.foldl (applyRegistryOp cfg) dmr_server_init

/-- Register each endpoint of a list in turn by processing one frame from it
(the find_or_register path of dmr_process_frame), starting from the
initialized state. -/
def registerEndpoints (cfg : Config) (lookup : Nat → Option String)
    (f : DmrFrame) (now : Int) (eps : List Endpoint) : ServerState :=
  eps.foldl (fun s e => (dmr_process_frame cfg lookup f e now s).1)
    dmr_server_init

/-- A registry holding `DMR_MAX_CLIENTS` active sessions with pairwise
distinct endpoints: the capacity-full situation. -/
def fullState : ServerState :=
  { clients := (List.range DMR_MAX_CLIENTS).map fun i =>
      { addr := ⟨i, 1⟩, last_seen := 0, dmr_id := 0, active := true,
        callsign := "" },
    client_count := 100 }

/-- A sample two-session registry used for concrete instantiations: client A
was last seen at time 0 with a known identifier, client B at time 350 with an
unknown (zero) identifier. -/
def sampleState : ServerState :=
  { clients :=
      [{ addr := ⟨1, 1⟩, last_seen := 0, dmr_id := 100, active := true,
         callsign := "" },
       { addr := ⟨2, 2⟩, last_seen := 350, dmr_id := 0, active := true,
         callsign := "" }],
    client_count := 2 }

/-! ## Frame codec lemmas -/

-- Every byte read from an in-range datagram is below 256.
theorem byteAt_lt (bs : List Nat) (hb : ∀ b ∈ bs, b < 256) (i : Nat) :
    byteAt bs i < 256 := by
  unfold byteAt
  rw [List.getD_eq_getElem?_getD]
  rcases h : bs[i]? with _ | b
  · simp
  · have hm : b ∈ bs := by
      rcases List.getElem?_eq_some.mp h with ⟨hlt, rfl⟩
      exact List.getElem_mem hlt
    simpa using hb b hm

theorem getD_range_map (g : Nat → Nat) (n j : Nat) (h : j < n) :
    ((List.range n).map g).getD j 0 = g j := by
  rw [List.getD_eq_getElem?_getD, List.getElem?_map, List.getElem?_range h]
  rfl

theorem byteAt_default (bs : List Nat) (i : Nat) (h : bs.length ≤ i) :
    byteAt bs i = 0 := by
  unfold byteAt
  rw [List.getD_eq_getElem?_getD, List.getElem?_eq_none h]
  rfl

theorem encodeFrame_length (f : DmrFrame) : (encodeFrame f).length = 33 := by
  simp [encodeFrame, DMR_HEADER_SIZE, DMR_PAYLOAD_SIZE]

-- The bytes actually sent: the first six are the header stores that survive
-- the payload memcpy, bytes 6 and 7 are the first two payload bytes.
theorem byteAt_encodeFrame (f : DmrFrame) :
    byteAt (encodeFrame f) 0 = f.type % 256 ∧
    byteAt (encodeFrame f) 1 = f.slot % 256 ∧
    byteAt (encodeFrame f) 2 = f.src_id / 65536 % 256 ∧
    byteAt (encodeFrame f) 3 = f.src_id / 256 % 256 ∧
    byteAt (encodeFrame f) 4 = f.src_id % 256 ∧
    byteAt (encodeFrame f) 5 = f.dst_id / 65536 % 256 ∧
    byteAt (encodeFrame f) 6 = f.payload.getD 0 0 ∧
    byteAt (encodeFrame f) 7 = f.payload.getD 1 0 := by
  have h6 : byteAt (encodeFrame f) 6 = f.payload.getD 0 0 := by
    simp [encodeFrame, byteAt, DMR_HEADER_SIZE, DMR_PAYLOAD_SIZE]
  have h7 : byteAt (encodeFrame f) 7 = f.payload.getD 1 0 := by
    simp [encodeFrame, byteAt, DMR_HEADER_SIZE, DMR_PAYLOAD_SIZE]
  refine ⟨?_, ?_, ?_, ?_, ?_, ?_, h6, h7⟩ <;>
    simp [encodeFrame, byteAt, DMR_HEADER_SIZE, DMR_PAYLOAD_SIZE]

theorem decodeFrame_eq (bs : List Nat) (h : DMR_HEADER_SIZE ≤ bs.length) :
    decodeFrame bs = some
      { type := byteAt bs 0
        slot := byteAt bs 1
        src_id := byteAt bs 2 * 65536 + byteAt bs 3 * 256 + byteAt bs 4
        dst_id := byteAt bs 5 * 65536 + byteAt bs 6 * 256 + byteAt bs 7
        payload := (List.range DMR_PAYLOAD_SIZE).map fun j =>
          if j < min (bs.length - DMR_HEADER_SIZE) DMR_PAYLOAD_SIZE then
            byteAt bs (DMR_HEADER_SIZE + j) else 0 } := by
  rw [decodeFrame, if_pos h]

/-- C3: for every byte input of length at least 6 (bytes in range), decoding
the input into a frame and then re-encoding that frame yields bytes that
carry — and decode to — exactly the type, slot, src_id and dst_id that were
decoded from the original input. -/
theorem decode_encode_header_roundtrip (bs : List Nat)
    (hb : ∀ b ∈ bs, b < 256) (hlen : DMR_HEADER_SIZE ≤ bs.length) :
    ∃ f g, decodeFrame bs = some f ∧ decodeFrame (encodeFrame f) = some g ∧
      g.type = f.type ∧ g.slot = f.slot ∧ g.src_id = f.src_id ∧
      g.dst_id = f.dst_id := by
  have hb0 := byteAt_lt bs hb 0
  have hb1 := byteAt_lt bs hb 1
  have hb2 := byteAt_lt bs hb 2
  have hb3 := byteAt_lt bs hb 3
  have hb4 := byteAt_lt bs hb 4
  have hb5 := byteAt_lt bs hb 5
  have hb6 := byteAt_lt bs hb 6
  have hb7 := byteAt_lt bs hb 7
  have hdec := decodeFrame_eq bs hlen
  set f : DmrFrame :=
    { type := byteAt bs 0
      slot := byteAt bs 1
      src_id := byteAt bs 2 * 65536 + byteAt bs 3 * 256 + byteAt bs 4
      dst_id := byteAt bs 5 * 65536 + byteAt bs 6 * 256 + byteAt bs 7
      payload := (List.range DMR_PAYLOAD_SIZE).map fun j =>
        if j < min (bs.length - DMR_HEADER_SIZE) DMR_PAYLOAD_SIZE then
          byteAt bs (DMR_HEADER_SIZE + j) else 0 } with hfdef
  have hlenE : DMR_HEADER_SIZE ≤ (encodeFrame f).length := by
    rw [encodeFrame_length]; norm_num [DMR_HEADER_SIZE]
  have hdecE := decodeFrame_eq (encodeFrame f) hlenE
  obtain ⟨e0, e1, e2, e3, e4, e5, e6, e7⟩ := byteAt_encodeFrame f
  have hp0 : f.payload.getD 0 0 = byteAt bs 6 := by
    rw [hfdef]
    rw [getD_range_map _ DMR_PAYLOAD_SIZE 0 (by norm_num [DMR_PAYLOAD_SIZE])]
    by_cases h7 : 7 ≤ bs.length
    · rw [if_pos (by simp [DMR_HEADER_SIZE, DMR_PAYLOAD_SIZE]; omega)]
      norm_num [DMR_HEADER_SIZE]
    · rw [if_neg (by simp [DMR_HEADER_SIZE, DMR_PAYLOAD_SIZE]; omega),
        byteAt_default bs 6 (by omega)]
  have hp1 : f.payload.getD 1 0 = byteAt bs 7 := by
    rw [hfdef]
    rw [getD_range_map _ DMR_PAYLOAD_SIZE 1 (by norm_num [DMR_PAYLOAD_SIZE])]
    by_cases h8 : 8 ≤ bs.length
    · rw [if_pos (by simp [DMR_HEADER_SIZE, DMR_PAYLOAD_SIZE]; omega)]
      norm_num [DMR_HEADER_SIZE]
    · rw [if_neg (by simp [DMR_HEADER_SIZE, DMR_PAYLOAD_SIZE]; omega),
        byteAt_default bs 7 (by omega)]
  refine ⟨f, _, hdec, hdecE, ?_, ?_, ?_, ?_⟩
  · show byteAt (encodeFrame f) 0 = f.type
    rw [e0]
    show f.type % 256 = f.type
    have : f.type = byteAt bs 0 := rfl
    rw [this]
    exact Nat.mod_eq_of_lt hb0
  · show byteAt (encodeFrame f) 1 = f.slot
    rw [e1]
    show f.slot % 256 = f.slot
    have : f.slot = byteAt bs 1 := rfl
    rw [this]
    exact Nat.mod_eq_of_lt hb1
  · show byteAt (encodeFrame f) 2 * 65536 + byteAt (encodeFrame f) 3 * 256 +
      byteAt (encodeFrame f) 4 = f.src_id
    rw [e2, e3, e4]
    have : f.src_id = byteAt bs 2 * 65536 + byteAt bs 3 * 256 + byteAt bs 4 := rfl
    rw [this]
    omega
  · show byteAt (encodeFrame f) 5 * 65536 + byteAt (encodeFrame f) 6 * 256 +
      byteAt (encodeFrame f) 7 = f.dst_id
    rw [e5, e6, e7, hp0, hp1]
    have : f.dst_id = byteAt bs 5 * 65536 + byteAt bs 6 * 256 + byteAt bs 7 := rfl
    rw [this]
    omega

/-- Witness for C3 at the concrete input [1, 2, 3, 4, 5, 6, 7, 8, 9]. -/
theorem decode_encode_header_roundtrip_witness :
    ∃ f g, decodeFrame [1, 2, 3, 4, 5, 6, 7, 8, 9] = some f ∧
      decodeFrame (encodeFrame f) = some g ∧
      g.type = f.type ∧ g.slot = f.slot ∧ g.src_id = f.src_id ∧
      g.dst_id = f.dst_id :=
  decode_encode_header_roundtrip [1, 2, 3, 4, 5, 6, 7, 8, 9]
    (by decide) (by decide)

/-! ## Session registry lemmas -/

theorem activeEndpoints_cons (c : DmrClient) (cs : List DmrClient) :
    activeEndpoints (c :: cs) =
      if c.active then c.addr :: activeEndpoints cs else activeEndpoints cs := by
  by_cases h : c.active <;> simp [activeEndpoints, List.filter_cons, h]

theorem activeEndpoints_nil : activeEndpoints [] = [] := rfl

theorem length_activeEndpoints (cs : List DmrClient) :
    (activeEndpoints cs).length = countActive cs := by
  simp [activeEndpoints, countActive]

theorem mem_activeEndpoints (a : Endpoint) (cs : List DmrClient) :
    a ∈ activeEndpoints cs ↔ ∃ c ∈ cs, c.active ∧ c.addr = a := by
  simp [activeEndpoints, List.mem_map, List.mem_filter]
  tauto

theorem countActive_cons (c : DmrClient) (cs : List DmrClient) :
    countActive (c :: cs) =
      if c.active then countActive cs + 1 else countActive cs := by
  by_cases h : c.active <;> simp [countActive, List.filter_cons, h]

theorem findActiveClient_eq_none (addr : Endpoint) (cs : List DmrClient) :
    findActiveClient addr cs = none ↔ addr ∉ activeEndpoints cs := by
  induction cs with
  | nil => simp [findActiveClient, activeEndpoints_nil]
  | cons c rest ih =>
    rw [findActiveClient, activeEndpoints_cons]
    by_cases hc : c.active ∧ c.addr = addr
    · simp [hc, hc.1, hc.2]
    · rw [if_neg hc, ih]
      by_cases ha : c.active
      · simp only [if_pos ha, List.mem_cons]
        constructor
        · intro h hmem
          rcases hmem with h1 | h2
          · exact hc ⟨ha, h1.symm⟩
          · exact h h2
        · intro h hmem
          exact h (Or.inr hmem)
      · rw [if_neg ha]

theorem findActiveClient_some (addr : Endpoint) (cs : List DmrClient)
    (c : DmrClient) (h : findActiveClient addr cs = some c) :
    c.active = true ∧ c.addr = addr ∧ c ∈ cs := by
  induction cs with
  | nil => simp [findActiveClient] at h
  | cons d rest ih =>
    rw [findActiveClient] at h
    by_cases hd : d.active ∧ d.addr = addr
    · rw [if_pos hd] at h
      cases h
      exact ⟨hd.1, hd.2, List.mem_cons_self _ _⟩
    · rw [if_neg hd] at h
      rcases ih h with ⟨h1, h2, h3⟩
      exact ⟨h1, h2, List.mem_cons_of_mem _ h3⟩

-- What the per-client update block preserves and what it can change.
theorem touchedClient_facts (cfg : Config) (lk : Nat → Option String)
    (f : DmrFrame) (now : Int) (c : DmrClient) :
    (touchedClient cfg lk f now c).1.active = c.active ∧
    (touchedClient cfg lk f now c).1.addr = c.addr ∧
    (touchedClient cfg lk f now c).1.last_seen = now ∧
    (c.dmr_id ≠ 0 →
      (touchedClient cfg lk f now c).1 = { c with last_seen := now } ∧
      (touchedClient cfg lk f now c).2 = []) ∧
    (∀ id, DbEvent.dirLookup id ∈ (touchedClient cfg lk f now c).2 →
      c.dmr_id = 0 ∧ f.src_id ≠ 0) := by
  unfold touchedClient
  by_cases h1 : c.dmr_id = 0 ∧ f.src_id ≠ 0
  · rw [if_pos h1]
    by_cases h2 : cfg.db_enabled
    · rw [if_pos h2]
      rcases hl : lk f.src_id with _ | str <;> simp [h1]
    · rw [if_neg h2]
      simp [h1]
  · rw [if_neg h1]
    simp [h1]

theorem touchClient_none_iff (cfg : Config) (lk : Nat → Option String)
    (f : DmrFrame) (addr : Endpoint) (now : Int) (cs : List DmrClient) :
    touchClient cfg lk f addr now cs = none ↔ addr ∉ activeEndpoints cs := by
  rw [← findActiveClient_eq_none]
  induction cs with
  | nil => simp [touchClient, findActiveClient]
  | cons c rest ih =>
    rw [touchClient, findActiveClient]
    by_cases hc : c.active ∧ c.addr = addr
    · rw [if_pos hc, if_pos hc]
      simp
    · rw [if_neg hc, if_neg hc]
      rcases ht : touchClient cfg lk f addr now rest with _ | p
      · simp only [ht] at ih ⊢
        simpa using ih
      · obtain ⟨rest2, evs2⟩ := p
        simp only [ht] at ih ⊢
        simpa using ih

theorem touchClient_some (cfg : Config) (lk : Nat → Option String)
    (f : DmrFrame) (addr : Endpoint) (now : Int) (cs cs' : List DmrClient)
    (evs : List DbEvent)
    (h : touchClient cfg lk f addr now cs = some (cs', evs)) :
    cs'.length = cs.length ∧ activeEndpoints cs' = activeEndpoints cs ∧
    countActive cs' = countActive cs := by
  induction cs generalizing cs' evs with
  | nil => simp [touchClient] at h
  | cons c rest ih =>
    rw [touchClient] at h
    by_cases hc : c.active ∧ c.addr = addr
    · rw [if_pos hc] at h
      rw [Option.some_inj] at h
      cases h
      obtain ⟨hact, haddr, -, -, -⟩ := touchedClient_facts cfg lk f now c
      refine ⟨by simp, ?_, ?_⟩
      · rw [activeEndpoints_cons, activeEndpoints_cons, hact, haddr]
      · rw [countActive_cons, countActive_cons, hact]
    · rw [if_neg hc] at h
      rcases ht : touchClient cfg lk f addr now rest with _ | p
      · rw [ht] at h; simp at h
      · obtain ⟨rest2, evs2⟩ := p
        rw [ht] at h
        rw [Option.some_inj] at h
        cases h
        obtain ⟨hl, ha, hcnt⟩ := ih _ _ ht
        refine ⟨by simp [hl], ?_, ?_⟩
        · rw [activeEndpoints_cons, activeEndpoints_cons, ha]
        · rw [countActive_cons, countActive_cons, hcnt]

theorem addClientAux_none_iff (addr : Endpoint) (now : Int) (dmr_id : Nat)
    (cg : Option String) (cs : List DmrClient) :
    addClientAux addr now dmr_id cg cs = none ↔ ∀ c ∈ cs, c.active := by
  induction cs with
  | nil => simp [addClientAux]
  | cons c rest ih =>
    rw [addClientAux]
    by_cases hc : c.active
    · rw [if_pos hc, Option.map_eq_none']
      rw [ih]
      simp [hc]
    · rw [if_neg hc]
      simp [hc]

theorem addClientAux_some (addr : Endpoint) (now : Int) (dmr_id : Nat)
    (cg : Option String) (cs cs' : List DmrClient)
    (h : addClientAux addr now dmr_id cg cs = some cs') :
    cs'.length = cs.length ∧
    List.Perm (activeEndpoints cs') (addr :: activeEndpoints cs) ∧
    countActive cs' = countActive cs + 1 := by
  induction cs generalizing cs' with
  | nil => simp [addClientAux] at h
  | cons c rest ih =>
    rw [addClientAux] at h
    by_cases hc : c.active
    · rw [if_pos hc] at h
      rcases hr : addClientAux addr now dmr_id cg rest with _ | rest'
      · rw [hr] at h; simp at h
      · rw [hr] at h
        simp only [Option.map_some', Option.some_inj] at h
        cases h
        obtain ⟨hl, hp, hcnt⟩ := ih rest' hr
        refine ⟨by simp [hl], ?_, ?_⟩
        · rw [activeEndpoints_cons, if_pos hc, activeEndpoints_cons, if_pos hc]
          exact (hp.cons c.addr).trans (List.Perm.swap addr c.addr _)
        · rw [countActive_cons, if_pos hc, countActive_cons, if_pos hc]
          omega
    · rw [if_neg hc] at h
      rw [Option.some_inj] at h
      cases h
      have hfa : (freshClient addr now dmr_id cg).active = true := rfl
      have hfd : (freshClient addr now dmr_id cg).addr = addr := rfl
      refine ⟨by simp, ?_, ?_⟩
      · rw [activeEndpoints_cons, if_pos hfa, hfd,
          activeEndpoints_cons, if_neg (by simp [hc])]
      · rw [countActive_cons, if_pos hfa, countActive_cons, if_neg (by simp [hc])]

theorem removeClientAux_none_iff (addr : Endpoint) (cs : List DmrClient) :
    removeClientAux addr cs = none ↔ addr ∉ activeEndpoints cs := by
  rw [← findActiveClient_eq_none]
  induction cs with
  | nil => simp [removeClientAux, findActiveClient]
  | cons c rest ih =>
    rw [removeClientAux, findActiveClient]
    by_cases hc : c.active ∧ c.addr = addr
    · rw [if_pos hc, if_pos hc]
      simp
    · rw [if_neg hc, if_neg hc]
      rcases ht : removeClientAux addr rest with _ | p
      · simp only [ht] at ih ⊢
        simpa using ih
      · simp only [ht] at ih ⊢
        simpa using ih

theorem removeClientAux_some (addr : Endpoint) (cs cs' : List DmrClient)
    (c : DmrClient) (h : removeClientAux addr cs = some (cs', c)) :
    cs'.length = cs.length ∧ c.active = true ∧ c.addr = addr ∧
    activeEndpoints cs' = (activeEndpoints cs).erase addr ∧
    countActive cs = countActive cs' + 1 ∧
    addr ∈ activeEndpoints cs := by
  induction cs generalizing cs' c with
  | nil => simp [removeClientAux] at h
  | cons c0 rest ih =>
    rw [removeClientAux] at h
    by_cases hc : c0.active ∧ c0.addr = addr
    · rw [if_pos hc] at h
      rw [Option.some_inj] at h
      cases h
      have hmem : addr ∈ activeEndpoints (c0 :: rest) := by
        rw [activeEndpoints_cons, if_pos hc.1, hc.2]
        exact List.mem_cons_self _ _
      have hd : ({ c0 with active := false } : DmrClient).active = false := rfl
      refine ⟨by simp, hc.1, hc.2, ?_, ?_, hmem⟩
      · rw [activeEndpoints_cons, activeEndpoints_cons, hd]
        simp only [Bool.false_eq_true, if_false, hc.1, if_true]
        rw [hc.2, List.erase_cons_head]
      · rw [countActive_cons, countActive_cons, hd]
        simp only [Bool.false_eq_true, if_false, hc.1, if_true]
    · rw [if_neg hc] at h
      rcases ht : removeClientAux addr rest with _ | p
      · rw [ht] at h; simp at h
      · obtain ⟨rest2, c2⟩ := p
        rw [ht] at h
        simp only [Option.map_some', Option.some_inj] at h
        cases h
        obtain ⟨hl, hact, haddr, herase, hcnt, hmem⟩ := ih _ _ ht
        by_cases ha : c0.active
        · have hne : c0.addr ≠ addr := fun he => hc ⟨ha, he⟩
          refine ⟨by simp [hl], hact, haddr, ?_, ?_, ?_⟩
          · rw [activeEndpoints_cons, if_pos ha, activeEndpoints_cons,
              if_pos ha, herase, List.erase_cons_tail (by simp [hne])]
          · rw [countActive_cons, if_pos ha, countActive_cons, if_pos ha]
            omega
          · rw [activeEndpoints_cons, if_pos ha]
            exact List.mem_cons_of_mem _ hmem
        · refine ⟨by simp [hl], hact, haddr, ?_, ?_, ?_⟩
          · rw [activeEndpoints_cons, if_neg ha, activeEndpoints_cons,
              if_neg ha, herase]
          · rw [countActive_cons, if_neg ha, countActive_cons, if_neg ha]
            omega
          · rw [activeEndpoints_cons, if_neg ha]
            exact hmem

-- The eviction pass only deactivates slots, so the surviving endpoints form
-- a sublist of the previous snapshot.
theorem activeEndpoints_evict_sublist (now t : Int) (cs : List DmrClient) :
    List.Sublist (activeEndpoints (cs.map (evictStep now t)))
      (activeEndpoints cs) := by
  induction cs with
  | nil => simp [activeEndpoints_nil]
  | cons c rest ih =>
    rw [List.map_cons, activeEndpoints_cons, activeEndpoints_cons]
    by_cases he : evictable now t c
    · have hstep : evictStep now t c = { c with active := false } := by
        rw [evictStep, if_pos he]
      rw [hstep]
      simp only [Bool.false_eq_true, if_false]
      by_cases ha : c.active
      · rw [if_pos ha]
        exact ih.cons _
      · rw [if_neg ha]
        exact ih
    · have hstep : evictStep now t c = c := by
        rw [evictStep, if_neg he]
      rw [hstep]
      by_cases ha : c.active
      · rw [if_pos ha, if_pos ha]
        exact ih.cons₂ _
      · rw [if_neg ha, if_neg ha]
        exact ih

theorem countActive_evict (now t : Int) (cs : List DmrClient) :
    countActive (cs.map (evictStep now t)) +
      (cs.filter (evictable now t)).length = countActive cs := by
  induction cs with
  | nil => simp [countActive]
  | cons c rest ih =>
    rw [List.map_cons, List.filter_cons]
    by_cases he : evictable now t c
    · have hact : c.active = true := by
        have := he
        unfold evictable at this
        exact (Bool.and_eq_true_iff.mp this).1
      have hstep : evictStep now t c = { c with active := false } := by
        rw [evictStep, if_pos he]
      rw [hstep, if_pos he, countActive_cons, countActive_cons]
      simp only [Bool.false_eq_true, if_false, if_pos hact, List.length_cons]
      omega
    · have hstep : evictStep now t c = c := by
        rw [evictStep, if_neg he]
      rw [hstep, if_neg he, countActive_cons, countActive_cons]
      by_cases ha : c.active
      · rw [if_pos ha, if_pos ha]
        omega
      · rw [if_neg ha, if_neg ha]
        exact ih

-- An active client's endpoint is in the snapshot.
theorem addr_mem_activeEndpoints (cs : List DmrClient) (c : DmrClient)
    (hm : c ∈ cs) (ha : c.active = true) : c.addr ∈ activeEndpoints cs := by
  rw [mem_activeEndpoints]
  exact ⟨c, hm, ha, rfl⟩

/-! ## Relay fan-out (C1) -/

theorem relayTargets_eq (src : Endpoint) (cs : List DmrClient) :
    relayTargets src cs = (activeEndpoints cs).filter (fun e => e != src) := by
  rw [activeEndpoints, List.filter_map, List.filter_filter, relayTargets]
  congr 1
  apply List.filter_congr
  intro c _
  simp [Bool.and_comm]

theorem filter_ne_of_not_mem (l : List Endpoint) (src : Endpoint)
    (h : src ∉ l) : l.filter (fun e => e != src) = l := by
  apply List.filter_eq_self.mpr
  intro a ha
  simp only [bne_iff_ne, ne_eq]
  exact fun he => h (he ▸ ha)

theorem length_filter_ne_of_nodup (l : List Endpoint) (src : Endpoint)
    (hnd : l.Nodup) (hm : src ∈ l) :
    (l.filter (fun e => e != src)).length + 1 = l.length := by
  induction l with
  | nil => simp at hm
  | cons a rest ih =>
    rw [List.nodup_cons] at hnd
    rw [List.filter_cons]
    rcases List.mem_cons.mp hm with rfl | hm2
    · rw [if_neg (by simp)]
      rw [filter_ne_of_not_mem rest src hnd.1]
      simp
    · have hne : a ≠ src := fun he => hnd.1 (he ▸ hm2)
      rw [if_pos (by simp [hne])]
      simp only [List.length_cons]
      rw [ih hnd.2 hm2]

/-- C1: for every registry state whose visible counter and endpoint
uniqueness invariants hold, dmr_relay_frame never sends to the source
endpoint; it sends to exactly every active session other than the source,
which is count()-1 targets when the source is registered and count() targets
when it is not. -/
theorem relay_never_sends_to_source (f : DmrFrame) (src : Endpoint)
    (s : ServerState)
    (hcount : s.client_count = (countActive s.clients : Int))
    (hnd : (activeEndpoints s.clients).Nodup) :
    (∀ t ∈ dmr_relay_frame f src s, t.1 ≠ src) ∧
    (∀ e, e ≠ src →
      (e ∈ activeEndpoints s.clients ↔ ∃ t ∈ dmr_relay_frame f src s, t.1 = e)) ∧
    (src ∈ activeEndpoints s.clients →
      ((dmr_relay_frame f src s).length : Int) = s.client_count - 1) ∧
    (src ∉ activeEndpoints s.clients →
      ((dmr_relay_frame f src s).length : Int) = s.client_count) := by
  have hmem : ∀ e, e ∈ relayTargets src s.clients ↔
      e ∈ activeEndpoints s.clients ∧ e ≠ src := by
    intro e
    rw [relayTargets_eq, List.mem_filter]
    simp
  refine ⟨?_, ?_, ?_, ?_⟩
  · intro t ht
    rw [dmr_relay_frame, List.mem_map] at ht
    obtain ⟨e, he, rfl⟩ := ht
    exact ((hmem e).mp he).2
  · intro e hne
    rw [dmr_relay_frame]
    constructor
    · intro he
      exact ⟨(e, encodeFrame f), List.mem_map_of_mem _ ((hmem e).mpr ⟨he, hne⟩),
        rfl⟩
    · rintro ⟨t, ht, rfl⟩
      rw [List.mem_map] at ht
      obtain ⟨e2, he2, rfl⟩ := ht
      exact ((hmem e2).mp he2).1
  · intro hsrc
    rw [dmr_relay_frame, List.length_map, relayTargets_eq, hcount,
      ← length_activeEndpoints]
    have := length_filter_ne_of_nodup (activeEndpoints s.clients) src hnd hsrc
    omega
  · intro hsrc
    rw [dmr_relay_frame, List.length_map, relayTargets_eq, hcount,
      ← length_activeEndpoints, filter_ne_of_not_mem _ _ hsrc]

/-- Witness for C1 on a concrete two-session registry. -/
theorem relay_never_sends_to_source_witness :
    (∀ t ∈ dmr_relay_frame
        { type := 1, slot := 1, src_id := 5, dst_id := 6, payload := [] }
        ⟨1, 1⟩
        { clients := [{ addr := ⟨1, 1⟩, last_seen := 0, dmr_id := 5,
                        active := true, callsign := "" },
                      { addr := ⟨2, 2⟩, last_seen := 0, dmr_id := 6,
                        active := true, callsign := "" }],
          client_count := 2 },
      t.1 ≠ ⟨1, 1⟩) ∧
    (⟨1, 1⟩ ∈ activeEndpoints
        [{ addr := ⟨1, 1⟩, last_seen := 0, dmr_id := 5,
           active := true, callsign := "" },
         { addr := ⟨2, 2⟩, last_seen := 0, dmr_id := 6,
           active := true, callsign := "" }] →
      ((dmr_relay_frame
        { type := 1, slot := 1, src_id := 5, dst_id := 6, payload := [] }
        ⟨1, 1⟩
        { clients := [{ addr := ⟨1, 1⟩, last_seen := 0, dmr_id := 5,
                        active := true, callsign := "" },
                      { addr := ⟨2, 2⟩, last_seen := 0, dmr_id := 6,
                        active := true, callsign := "" }],
          client_count := 2 }).length : Int) = 2 - 1) := by
  have h := relay_never_sends_to_source
    { type := 1, slot := 1, src_id := 5, dst_id := 6, payload := [] }
    ⟨1, 1⟩
    { clients := [{ addr := ⟨1, 1⟩, last_seen := 0, dmr_id := 5,
                    active := true, callsign := "" },
                  { addr := ⟨2, 2⟩, last_seen := 0, dmr_id := 6,
                    active := true, callsign := "" }],
      client_count := 2 }
    (by decide) (by decide)
  exact ⟨h.1, fun hm => h.2.2.1 hm⟩

/-! ## State invariant preservation -/

-- Reduction of dmr_process_frame when no session matches the endpoint.
theorem dmr_process_frame_not_found (cfg : Config) (lk : Nat → Option String)
    (f : DmrFrame) (addr : Endpoint) (now : Int) (s : ServerState)
    (hmem : addr ∉ activeEndpoints s.clients) :
    dmr_process_frame cfg lk f addr now s =
      ((dmr_add_client cfg addr f.src_id none now s).1,
       (dmr_add_client cfg addr f.src_id none now s).2.2 ++
         if cfg.db_enabled then [DbEvent.logFrame addr] else []) := by
  rw [dmr_process_frame,
    (touchClient_none_iff cfg lk f addr now s.clients).mpr hmem]

-- A full array rejects insertion and leaves everything unchanged.
theorem dmr_add_client_full (cfg : Config) (addr : Endpoint) (dmr_id : Nat)
    (cg : Option String) (now : Int) (s : ServerState)
    (hfull : countActive s.clients = s.clients.length) :
    dmr_add_client cfg addr dmr_id cg now s = (s, -1, []) := by
  have hall : ∀ c ∈ s.clients, c.active := by
    have hsub := List.filter_sublist (l := s.clients) (p := (·.active))
    have heq := hsub.eq_of_length hfull
    intro c hc
    exact List.of_mem_filter (heq ▸ hc)
  rw [dmr_add_client, (addClientAux_none_iff addr now dmr_id cg s.clients).mpr hall]

-- Inserting a fresh endpoint below capacity succeeds and extends the
-- snapshot by exactly that endpoint.
theorem dmr_process_frame_fresh (cfg : Config) (lk : Nat → Option String)
    (f : DmrFrame) (addr : Endpoint) (now : Int) (s : ServerState)
    (hmem : addr ∉ activeEndpoints s.clients)
    (hroom : countActive s.clients < s.clients.length) :
    List.Perm
      (activeEndpoints (dmr_process_frame cfg lk f addr now s).1.clients)
      (addr :: activeEndpoints s.clients) ∧
    (dmr_process_frame cfg lk f addr now s).1.clients.length =
      s.clients.length ∧
    countActive (dmr_process_frame cfg lk f addr now s).1.clients =
      countActive s.clients + 1 ∧
    (dmr_process_frame cfg lk f addr now s).1.client_count =
      s.client_count + 1 := by
  rw [dmr_process_frame_not_found cfg lk f addr now s hmem]
  rcases ha : addClientAux addr now f.src_id none s.clients with _ | cs'
  · exfalso
    have hall := (addClientAux_none_iff addr now f.src_id none s.clients).mp ha
    have : countActive s.clients = s.clients.length := by
      unfold countActive
      rw [List.filter_eq_self.mpr hall]
    omega
  · obtain ⟨hl, hp, hcnt⟩ := addClientAux_some _ _ _ _ _ _ ha
    rw [dmr_add_client, ha]
    exact ⟨hp, hl, hcnt, rfl⟩

theorem Wf_init : Wf dmr_server_init := by
  refine ⟨by simp [dmr_server_init], ?_, ?_⟩
  · have : activeEndpoints dmr_server_init.clients = [] := by decide
    rw [show countActive dmr_server_init.clients =
        (activeEndpoints dmr_server_init.clients).length from
        (length_activeEndpoints _).symm, this]
    rfl
  · have : activeEndpoints dmr_server_init.clients = [] := by decide
    rw [this]
    exact List.nodup_nil

theorem Wf_process (cfg : Config) (lk : Nat → Option String) (f : DmrFrame)
    (addr : Endpoint) (now : Int) (s : ServerState) (h : Wf s) :
    Wf (dmr_process_frame cfg lk f addr now s).1 := by
  obtain ⟨hlen, hcnt, hnd⟩ := h
  rw [dmr_process_frame]
  rcases ht : touchClient cfg lk f addr now s.clients with _ | p
  · have hmem := (touchClient_none_iff cfg lk f addr now s.clients).mp ht
    rcases ha : addClientAux addr now f.src_id none s.clients with _ | cs'
    · rw [dmr_add_client, ha]
      exact ⟨hlen, hcnt, hnd⟩
    · obtain ⟨hl, hp, hc⟩ := addClientAux_some _ _ _ _ _ _ ha
      rw [dmr_add_client, ha]
      refine ⟨by simp [hl, hlen], ?_, ?_⟩
      · show s.client_count + 1 = (countActive cs' : Int)
        rw [hc, hcnt]
        push_cast
        ring
      · rw [hp.nodup_iff]
        exact List.nodup_cons.mpr ⟨hmem, hnd⟩
  · obtain ⟨cs', evs⟩ := p
    obtain ⟨hl, hae, hca⟩ := touchClient_some cfg lk f addr now _ _ _ ht
    exact ⟨by simp [hl, hlen], by simp [hcnt, hca], by rw [hae]; exact hnd⟩

theorem Wf_remove (cfg : Config) (addr : Endpoint) (s : ServerState)
    (h : Wf s) : Wf (dmr_remove_client cfg addr s).1 := by
  obtain ⟨hlen, hcnt, hnd⟩ := h
  rw [dmr_remove_client]
  rcases hr : removeClientAux addr s.clients with _ | p
  · exact ⟨hlen, hcnt, hnd⟩
  · obtain ⟨cs', c⟩ := p
    obtain ⟨hl, -, -, herase, hc, hm⟩ := removeClientAux_some _ _ _ _ hr
    refine ⟨by simp [hl, hlen], ?_, ?_⟩
    · show s.client_count - 1 = (countActive cs' : Int)
      rw [hcnt]
      omega
    · rw [herase]
      exact hnd.erase addr

theorem Wf_cleanup (cfg : Config) (now : Int) (s : ServerState)
    (h : Wf s) : Wf (dmr_cleanup_clients cfg now s).1 := by
  obtain ⟨hlen, hcnt, hnd⟩ := h
  rw [dmr_cleanup_clients]
  refine ⟨by simp [hlen], ?_, ?_⟩
  · show s.client_count -
      ((s.clients.filter (evictable now cfg.timeout)).length : Int) =
      (countActive (s.clients.map (evictStep now cfg.timeout)) : Int)
    have := countActive_evict now cfg.timeout s.clients
    rw [hcnt]
    omega
  · exact hnd.sublist (activeEndpoints_evict_sublist now cfg.timeout s.clients)

/-! ## Registry capacity (C2) -/

-- Folding fresh registrations over a duplicate-free endpoint list.
theorem registerFold (cfg : Config) (lk : Nat → Option String) (f : DmrFrame)
    (now : Int) :
    ∀ (eps : List Endpoint) (s : ServerState), Wf s → eps.Nodup →
      (∀ e ∈ eps, e ∉ activeEndpoints s.clients) →
      countActive s.clients + eps.length ≤ DMR_MAX_CLIENTS →
      Wf (eps.foldl (fun s2 e => (dmr_process_frame cfg lk f e now s2).1) s) ∧
      List.Perm
        (activeEndpoints
          (eps.foldl (fun s2 e => (dmr_process_frame cfg lk f e now s2).1)
            s).clients)
        (eps ++ activeEndpoints s.clients) := by
  intro eps
  induction eps with
  | nil =>
    intro s hw _ _ _
    exact ⟨hw, by simp⟩
  | cons e rest ih =>
    intro s hw hnd hfresh hcap
    rw [List.foldl_cons]
    have hroom : countActive s.clients < s.clients.length := by
      rw [hw.1]
      simp only [List.length_cons] at hcap
      omega
    obtain ⟨hp, hl, hca, hcc⟩ := dmr_process_frame_fresh cfg lk f e now s
      (hfresh e (List.mem_cons_self _ _)) hroom
    have hnd2 := List.nodup_cons.mp hnd
    have hw1 : Wf (dmr_process_frame cfg lk f e now s).1 :=
      Wf_process cfg lk f e now s hw
    have hfresh1 : ∀ e' ∈ rest,
        e' ∉ activeEndpoints (dmr_process_frame cfg lk f e now s).1.clients := by
      intro e' he' hmem
      rcases List.mem_cons.mp (hp.mem_iff.mp hmem) with rfl | hmem2
      · exact hnd2.1 he'
      · exact hfresh e' (List.mem_cons_of_mem _ he') hmem2
    have hcap1 : countActive (dmr_process_frame cfg lk f e now s).1.clients +
        rest.length ≤ DMR_MAX_CLIENTS := by
      rw [hca]
      simp only [List.length_cons] at hcap
      omega
    obtain ⟨hwf, hperm⟩ := ih _ hw1 hnd2.2 hfresh1 hcap1
    exact ⟨hwf, hperm.trans ((hp.append_left rest).trans List.perm_middle)⟩

/-- C2: registering N ≤ 100 distinct endpoints from the empty registry gives
an active session count of exactly N, and an insertion attempt when all 100
slots are active fails with -1 (RegistryFull), evicting nothing and leaving
the count unchanged. -/
theorem registry_bounded_capacity (cfg : Config) (lk : Nat → Option String)
    (f : DmrFrame) (now : Int) :
    (∀ eps : List Endpoint, eps.Nodup → eps.length ≤ DMR_MAX_CLIENTS →
      (registerEndpoints cfg lk f now eps).client_count = (eps.length : Int)) ∧
    (∀ (s : ServerState) (addr : Endpoint) (dmr_id : Nat) (cg : Option String)
        (now2 : Int), Wf s → countActive s.clients = DMR_MAX_CLIENTS →
      dmr_add_client cfg addr dmr_id cg now2 s = (s, -1, [])) := by
  constructor
  · intro eps hnd hlen
    have hfresh : ∀ e ∈ eps, e ∉ activeEndpoints dmr_server_init.clients := by
      intro e _
      have : activeEndpoints dmr_server_init.clients = [] := by decide
      rw [this]
      exact List.not_mem_nil e
    have hcap : countActive dmr_server_init.clients + eps.length ≤
        DMR_MAX_CLIENTS := by
      have : countActive dmr_server_init.clients = 0 := by decide
      omega
    obtain ⟨hwf, hperm⟩ := registerFold cfg lk f now eps dmr_server_init
      Wf_init hnd hfresh hcap
    rw [registerEndpoints, hwf.2.1, ← length_activeEndpoints, hperm.length_eq]
    have : activeEndpoints dmr_server_init.clients = [] := by decide
    rw [this]
    simp
  · intro s addr dmr_id cg now2 hw hfull
    exact dmr_add_client_full cfg addr dmr_id cg now2 s (by rw [hfull, hw.1])

/-- Witness for C2: two distinct endpoints yield count 2, and insertion into
the full 100-session registry is rejected unchanged. -/
theorem registry_bounded_capacity_witness :
    (registerEndpoints ⟨300, false⟩ (fun _ => none)
      { type := 1, slot := 1, src_id := 9, dst_id := 0, payload := [] } 0
      [⟨1, 1⟩, ⟨2, 2⟩]).client_count = 2 ∧
    dmr_add_client ⟨300, false⟩ ⟨200, 200⟩ 5 none 0 fullState =
      (fullState, -1, []) := by
  have h := registry_bounded_capacity ⟨300, false⟩ (fun _ => none)
    { type := 1, slot := 1, src_id := 9, dst_id := 0, payload := [] } 0
  refine ⟨h.1 [⟨1, 1⟩, ⟨2, 2⟩] (by decide) (by decide), ?_⟩
  refine h.2 fullState ⟨200, 200⟩ 5 none 0 ⟨by decide, by decide, by decide⟩
    (by decide)

/-! ## Operation-sequence invariants (C7, C10) -/

theorem applyServerOp_Wf (cfg : Config) (lk : Nat → Option String)
    (s : ServerState) (op : ServerOp) (h : Wf s) :
    Wf (applyServerOp cfg lk s op) := by
  cases op with
  | datagram bs src now =>
    rcases hd : decodeFrame bs with _ | f
    · simp only [applyServerOp, handleDatagram, hd]
      exact h
    · simp only [applyServerOp, handleDatagram, hd]
      exact Wf_process cfg lk f src now s h
  | removal addr => exact Wf_remove cfg addr s h
  | cleanup now => exact Wf_cleanup cfg now s h

theorem runServer_Wf (cfg : Config) (lk : Nat → Option String)
    (ops : List ServerOp) : Wf (runServer cfg lk ops) := by
  rw [runServer]
  have hstep : ∀ (l : List ServerOp) (s : ServerState), Wf s →
      Wf (l.foldl (applyServerOp cfg lk) s) := by
    intro l
    induction l with
    | nil => intro s h; exact h
    | cons op rest ih =>
      intro s h
      rw [List.foldl_cons]
      exact ih _ (applyServerOp_Wf cfg lk s op h)
  exact hstep ops dmr_server_init Wf_init

/-- C7: after any sequence of datagram-processing (which performs the
registration), removal and eviction operations starting from the empty
registry, no two active sessions share an endpoint. -/
theorem at_most_one_session_per_endpoint (cfg : Config)
    (lk : Nat → Option String) (ops : List ServerOp) :
    (activeEndpoints (runServer cfg lk ops).clients).Nodup :=
  (runServer_Wf cfg lk ops).2.2

theorem applyRegistryOp_counts (cfg : Config) (s : ServerState)
    (op : RegistryOp) (hlen : s.clients.length = DMR_MAX_CLIENTS)
    (hcnt : s.client_count = (countActive s.clients : Int)) :
    (applyRegistryOp cfg s op).clients.length = DMR_MAX_CLIENTS ∧
    (applyRegistryOp cfg s op).client_count =
      (countActive (applyRegistryOp cfg s op).clients : Int) := by
  cases op with
  | add addr dmr_id cg now =>
    simp only [applyRegistryOp, dmr_add_client]
    rcases ha : addClientAux addr now dmr_id cg s.clients with _ | cs'
    · exact ⟨hlen, hcnt⟩
    · obtain ⟨hl, -, hc⟩ := addClientAux_some _ _ _ _ _ _ ha
      refine ⟨by simp [hl, hlen], ?_⟩
      show s.client_count + 1 = (countActive cs' : Int)
      rw [hc, hcnt]
      push_cast
      ring
  | removal addr =>
    simp only [applyRegistryOp, dmr_remove_client]
    rcases hr : removeClientAux addr s.clients with _ | p
    · exact ⟨hlen, hcnt⟩
    · obtain ⟨cs', c⟩ := p
      obtain ⟨hl, -, -, -, hc, -⟩ := removeClientAux_some _ _ _ _ hr
      refine ⟨by simp [hl, hlen], ?_⟩
      show s.client_count - 1 = (countActive cs' : Int)
      rw [hcnt]
      omega
  | cleanup now =>
    simp only [applyRegistryOp, dmr_cleanup_clients]
    refine ⟨by simp [hlen], ?_⟩
    show s.client_count -
        ((s.clients.filter (evictable now cfg.timeout)).length : Int) =
      (countActive (s.clients.map (evictStep now cfg.timeout)) : Int)
    have := countActive_evict now cfg.timeout s.clients
    rw [hcnt]
    omega

theorem runRegistry_counts (cfg : Config) (ops : List RegistryOp) :
    (runRegistry cfg ops).clients.length = DMR_MAX_CLIENTS ∧
    (runRegistry cfg ops).client_count =
      (countActive (runRegistry cfg ops).clients : Int) := by
  rw [runRegistry]
  have hstep : ∀ (l : List RegistryOp) (s : ServerState),
      s.clients.length = DMR_MAX_CLIENTS →
      s.client_count = (countActive s.clients : Int) →
      (l.foldl (applyRegistryOp cfg) s).clients.length = DMR_MAX_CLIENTS ∧
      (l.foldl (applyRegistryOp cfg) s).client_count =
        (countActive (l.foldl (applyRegistryOp cfg) s).clients : Int) := by
    intro l
    induction l with
    | nil => intro s h1 h2; exact ⟨h1, h2⟩
    | cons op rest ih =>
      intro s h1 h2
      rw [List.foldl_cons]
      obtain ⟨g1, g2⟩ := applyRegistryOp_counts cfg s op h1 h2
      exact ih _ g1 g2
  refine hstep ops dmr_server_init (by simp [dmr_server_init]) ?_
  have : activeEndpoints dmr_server_init.clients = [] := by decide
  rw [← length_activeEndpoints, this]
  rfl

/-- C10: after every sequence of add, remove and cleanup operations from the
initialized registry, the visible counter client_count equals the number of
active array slots, and so the count always lies between 0 and 100. -/
theorem client_count_matches_active_slots (cfg : Config)
    (ops : List RegistryOp) :
    (runRegistry cfg ops).client_count =
      (countActive (runRegistry cfg ops).clients : Int) ∧
    0 ≤ (runRegistry cfg ops).client_count ∧
    (runRegistry cfg ops).client_count ≤ 100 := by
  obtain ⟨hlen, hcnt⟩ := runRegistry_counts cfg ops
  refine ⟨hcnt, ?_, ?_⟩
  · rw [hcnt]
    exact_mod_cast Nat.zero_le _
  · rw [hcnt]
    have hle : countActive (runRegistry cfg ops).clients ≤ DMR_MAX_CLIENTS := by
      rw [← hlen]
      exact List.length_filter_le _ _
    have : (DMR_MAX_CLIENTS : Int) = 100 := rfl
    omega

/-! ## Capacity-full relay (C4) and eviction (C5) -/

set_option maxRecDepth 100000 in
/-- C4 counterexample: with all 100 slots active and a frame arriving from
the unseen endpoint (200, 200), new-session insertion is rejected, the
session set stays unchanged — yet the frame is still relayed to 100 targets,
refuting "the sender's frame is not relayed to any target on that attempt"
(dmr_server_run calls dmr_relay_frame unconditionally, lines 151-156). -/
theorem full_registry_frame_dropped_counterexample :
    countActive fullState.clients = DMR_MAX_CLIENTS ∧
    (⟨200, 200⟩ : Endpoint) ∉ activeEndpoints fullState.clients ∧
    (handleDatagram ⟨300, false⟩ (fun _ => none) [1, 1, 0, 0, 100, 0, 0, 200]
      ⟨200, 200⟩ 0 fullState).1 = fullState ∧
    (handleDatagram ⟨300, false⟩ (fun _ => none) [1, 1, 0, 0, 100, 0, 0, 200]
      ⟨200, 200⟩ 0 fullState).2.1.length = 100 := by
  decide

/-- C4 (amended): when a frame arrives from a previously-unseen endpoint and
the registry is at capacity, the insertion is rejected and the set of active
sessions is unchanged, but the frame IS relayed on that attempt: it goes to
all count() active sessions, never including the sender. -/
theorem full_registry_frame_still_relayed (cfg : Config)
    (lk : Nat → Option String) (bs : List Nat) (src : Endpoint) (now : Int)
    (s : ServerState) (hw : Wf s)
    (hfull : countActive s.clients = DMR_MAX_CLIENTS)
    (hsrc : src ∉ activeEndpoints s.clients)
    (hlen : DMR_HEADER_SIZE ≤ bs.length) :
    (handleDatagram cfg lk bs src now s).1 = s ∧
    ((handleDatagram cfg lk bs src now s).2.1.length : Int) =
      s.client_count ∧
    ∀ t ∈ (handleDatagram cfg lk bs src now s).2.1, t.1 ≠ src := by
  obtain ⟨f, hd⟩ : ∃ f, decodeFrame bs = some f := by
    rw [decodeFrame, if_pos hlen]
    exact ⟨_, rfl⟩
  have hstate : (dmr_process_frame cfg lk f src now s).1 = s := by
    rw [dmr_process_frame_not_found cfg lk f src now s hsrc,
      dmr_add_client_full cfg src f.src_id none now s (by rw [hfull, hw.1])]
  simp only [handleDatagram, hd, hstate]
  refine ⟨trivial, ?_, ?_⟩
  · rw [dmr_relay_frame, List.length_map, relayTargets_eq, hw.2.1,
      ← length_activeEndpoints, filter_ne_of_not_mem _ _ hsrc]
  · intro t ht
    rw [dmr_relay_frame, List.mem_map] at ht
    obtain ⟨e, he, rfl⟩ := ht
    rw [relayTargets_eq, List.mem_filter] at he
    simpa using he.2

/-- Witness for the amended C4 at the full concrete registry. -/
theorem full_registry_frame_still_relayed_witness :
    (handleDatagram ⟨300, false⟩ (fun _ => none) [1, 1, 0, 0, 100, 0, 0, 200]
      ⟨200, 200⟩ 0 fullState).1 = fullState ∧
    ((handleDatagram ⟨300, false⟩ (fun _ => none) [1, 1, 0, 0, 100, 0, 0, 200]
      ⟨200, 200⟩ 0 fullState).2.1.length : Int) = fullState.client_count ∧
    ∀ t ∈ (handleDatagram ⟨300, false⟩ (fun _ => none)
      [1, 1, 0, 0, 100, 0, 0, 200] ⟨200, 200⟩ 0 fullState).2.1,
      t.1 ≠ ⟨200, 200⟩ := by
  have hw : Wf fullState := ⟨by decide, by decide, by decide⟩
  exact full_registry_frame_still_relayed ⟨300, false⟩ (fun _ => none)
    [1, 1, 0, 0, 100, 0, 0, 200] ⟨200, 200⟩ 0 fullState hw
    (by decide) (by decide) (by decide)

/-- C5: an eviction pass removes exactly the active sessions whose idle time
now - last_activity strictly exceeds the timeout: the array keeps its length,
every such slot is deactivated, and every active slot within the window is
left untouched and its endpoint remains in the post-pass snapshot. -/
theorem eviction_exactly_idle (cfg : Config) (now : Int) (s : ServerState) :
    (dmr_cleanup_clients cfg now s).1.clients.length = s.clients.length ∧
    ∀ (i : Nat) (h : i < s.clients.length)
      (h2 : i < (dmr_cleanup_clients cfg now s).1.clients.length),
      ((s.clients.get ⟨i, h⟩).active = true →
        now - (s.clients.get ⟨i, h⟩).last_seen > cfg.timeout →
        ((dmr_cleanup_clients cfg now s).1.clients.get ⟨i, h2⟩).active =
          false) ∧
      ((s.clients.get ⟨i, h⟩).active = true →
        now - (s.clients.get ⟨i, h⟩).last_seen ≤ cfg.timeout →
        (dmr_cleanup_clients cfg now s).1.clients.get ⟨i, h2⟩ =
          s.clients.get ⟨i, h⟩ ∧
        (s.clients.get ⟨i, h⟩).addr ∈
          activeEndpoints (dmr_cleanup_clients cfg now s).1.clients) := by
  have hcl : (dmr_cleanup_clients cfg now s).1.clients =
      s.clients.map (evictStep now cfg.timeout) := rfl
  refine ⟨by rw [hcl]; simp, ?_⟩
  intro i h h2
  simp only [List.get_eq_getElem]
  have hget : (dmr_cleanup_clients cfg now s).1.clients[i] =
      evictStep now cfg.timeout s.clients[i] := by
    simp only [hcl, List.getElem_map]
  constructor
  · intro hact hidle
    have htrue : evictable now cfg.timeout s.clients[i] = true := by
      simp [evictable, hact, hidle]
    rw [hget]
    simp [evictStep, htrue]
  · intro hact hidle
    have hev : evictable now cfg.timeout s.clients[i] = false := by
      simp [evictable, hact]
      omega
    have heq : (dmr_cleanup_clients cfg now s).1.clients[i] =
        s.clients[i] := by
      rw [hget]
      simp [evictStep, hev]
    refine ⟨heq, ?_⟩
    have hmem : (dmr_cleanup_clients cfg now s).1.clients[i] ∈
        (dmr_cleanup_clients cfg now s).1.clients := List.getElem_mem h2
    rw [heq] at hmem
    exact addr_mem_activeEndpoints _ _ hmem hact

/-- Witness for C5 on the sample registry at time 400 with timeout 300:
client A (idle 400 > 300) is evicted, client B (idle 50) survives and stays
in the snapshot. -/
theorem eviction_exactly_idle_witness :
    ((dmr_cleanup_clients ⟨300, false⟩ 400 sampleState).1.clients.get
      ⟨0, by decide⟩).active = false ∧
    (dmr_cleanup_clients ⟨300, false⟩ 400 sampleState).1.clients.get
      ⟨1, by decide⟩ = sampleState.clients.get ⟨1, by decide⟩ ∧
    (sampleState.clients.get ⟨1, by decide⟩).addr ∈
      activeEndpoints (dmr_cleanup_clients ⟨300, false⟩ 400
        sampleState).1.clients := by
  have h := eviction_exactly_idle ⟨300, false⟩ 400 sampleState
  refine ⟨(h.2 0 (by decide) (by decide)).1 (by decide) (by decide), ?_⟩
  have h1 := (h.2 1 (by decide) (by decide)).2 (by decide) (by decide)
  exact ⟨h1.1, h1.2⟩

/-! ## Identifier policy (C6), malformed frames (C8), removal (C9) -/

-- When a session matches, the touch loop applies touchedClient to it and the
-- updated client is again the first active match.
theorem touchClient_found (cfg : Config) (lk : Nat → Option String)
    (f : DmrFrame) (addr : Endpoint) (now : Int) (cs : List DmrClient)
    (c : DmrClient) (h : findActiveClient addr cs = some c) :
    ∃ cs2, touchClient cfg lk f addr now cs =
        some (cs2, (touchedClient cfg lk f now c).2) ∧
      findActiveClient addr cs2 = some (touchedClient cfg lk f now c).1 := by
  induction cs generalizing c with
  | nil => simp [findActiveClient] at h
  | cons c0 rest ih =>
    rw [findActiveClient] at h
    rw [touchClient]
    by_cases hc : c0.active ∧ c0.addr = addr
    · rw [if_pos hc] at h
      rw [Option.some_inj] at h
      subst h
      rw [if_pos hc]
      refine ⟨(touchedClient cfg lk f now c0).1 :: rest, rfl, ?_⟩
      obtain ⟨hact, haddr, -, -, -⟩ := touchedClient_facts cfg lk f now c0
      rw [findActiveClient, if_pos (by rw [hact, haddr]; exact hc)]
    · rw [if_neg hc] at h
      rw [if_neg hc]
      obtain ⟨cs2, hts, hfind⟩ := ih c h
      rw [hts]
      refine ⟨c0 :: cs2, rfl, ?_⟩
      rw [findActiveClient, if_neg hc]
      exact hfind

-- dmr_add_client never emits a Directory-lookup event.
theorem dirLookup_not_in_add (cfg : Config) (addr : Endpoint) (dmr_id : Nat)
    (cg : Option String) (now : Int) (s : ServerState) (i : Nat) :
    DbEvent.dirLookup i ∉ (dmr_add_client cfg addr dmr_id cg now s).2.2 := by
  rw [dmr_add_client]
  rcases ha : addClientAux addr now dmr_id cg s.clients with _ | cs'
  · simp
  · by_cases hdb : cfg.db_enabled <;> simp [hdb]

/-- C6: once a session's identifier is non-zero, processing a later frame
from the same endpoint never overwrites it (first-seen wins, the session is
merely touched), and a Directory lookup event can only be emitted at the
moment the identifier is first assigned from zero to non-zero. -/
theorem identifier_first_seen_wins (cfg : Config) (lk : Nat → Option String)
    (f : DmrFrame) (addr : Endpoint) (now : Int) (s : ServerState) :
    (∀ c, findActiveClient addr s.clients = some c → c.dmr_id ≠ 0 →
      findActiveClient addr
          (dmr_process_frame cfg lk f addr now s).1.clients =
        some { c with last_seen := now } ∧
      ∀ id, DbEvent.dirLookup id ∉ (dmr_process_frame cfg lk f addr now s).2) ∧
    (∀ id, DbEvent.dirLookup id ∈ (dmr_process_frame cfg lk f addr now s).2 →
      ∃ c, findActiveClient addr s.clients = some c ∧ c.dmr_id = 0 ∧
        f.src_id ≠ 0) := by
  constructor
  · intro c hfind hid
    obtain ⟨cs2, hts, hfind2⟩ := touchClient_found cfg lk f addr now _ c hfind
    obtain ⟨-, -, -, hkeep, -⟩ := touchedClient_facts cfg lk f now c
    obtain ⟨hkeep1, hkeep2⟩ := hkeep hid
    constructor
    · simp only [dmr_process_frame, hts]
      rw [hfind2, hkeep1]
    · intro id
      simp only [dmr_process_frame, hts, hkeep2]
      by_cases hdb : cfg.db_enabled <;> simp [hdb]
  · intro id hmem
    rcases hf : findActiveClient addr s.clients with _ | c
    · exfalso
      have hnone : touchClient cfg lk f addr now s.clients = none :=
        (touchClient_none_iff cfg lk f addr now s.clients).mpr
          ((findActiveClient_eq_none addr s.clients).mp hf)
      simp only [dmr_process_frame, hnone] at hmem
      rcases List.mem_append.mp hmem with h1 | h2
      · exact dirLookup_not_in_add cfg addr f.src_id none now s id h1
      · by_cases hdb : cfg.db_enabled <;> simp [hdb] at h2
    · obtain ⟨cs2, hts, -⟩ := touchClient_found cfg lk f addr now _ c hf
      simp only [dmr_process_frame, hts] at hmem
      rcases List.mem_append.mp hmem with h1 | h2
      · obtain ⟨-, -, -, -, honly⟩ := touchedClient_facts cfg lk f now c
        obtain ⟨hz, hnz⟩ := honly id h1
        exact ⟨c, rfl, hz, hnz⟩
      · exfalso
        by_cases hdb : cfg.db_enabled <;> simp [hdb] at h2

/-- Witness for C6 on the sample registry: client A already has identifier
100; a frame with src_id 555 does not overwrite it and triggers no lookup. -/
theorem identifier_first_seen_wins_witness :
    findActiveClient ⟨1, 1⟩
        (dmr_process_frame ⟨300, true⟩ (fun _ => some "XX") 
          { type := 1, slot := 1, src_id := 555, dst_id := 0, payload := [] }
          ⟨1, 1⟩ 7 sampleState).1.clients =
      some { addr := ⟨1, 1⟩, last_seen := 7, dmr_id := 100, active := true,
             callsign := "" } ∧
    ∀ id, DbEvent.dirLookup id ∉
      (dmr_process_frame ⟨300, true⟩ (fun _ => some "XX")
        { type := 1, slot := 1, src_id := 555, dst_id := 0, payload := [] }
        ⟨1, 1⟩ 7 sampleState).2 := by
  have h := (identifier_first_seen_wins ⟨300, true⟩ (fun _ => some "XX")
    { type := 1, slot := 1, src_id := 555, dst_id := 0, payload := [] }
    ⟨1, 1⟩ 7 sampleState).1
    { addr := ⟨1, 1⟩, last_seen := 0, dmr_id := 100, active := true,
      callsign := "" } (by decide) (by decide)
  exact h

/-- C8: a datagram shorter than the 6-byte header fails to decode
(MalformedFrame) and the loop iteration leaves the registry untouched,
relaying to nobody and logging nothing. -/
theorem short_datagram_dropped (cfg : Config) (lk : Nat → Option String)
    (bs : List Nat) (src : Endpoint) (now : Int) (s : ServerState)
    (hshort : bs.length < DMR_HEADER_SIZE) :
    decodeFrame bs = none ∧
    handleDatagram cfg lk bs src now s = (s, [], []) := by
  have hd : decodeFrame bs = none := by
    rw [decodeFrame, if_neg (by omega)]
  exact ⟨hd, by simp only [handleDatagram, hd]⟩

/-- Witness for C8 at the 3-byte datagram [1, 2, 3]. -/
theorem short_datagram_dropped_witness :
    decodeFrame [1, 2, 3] = none ∧
    handleDatagram ⟨300, false⟩ (fun _ => none) [1, 2, 3] ⟨1, 1⟩ 0
      dmr_server_init = (dmr_server_init, [], []) :=
  short_datagram_dropped ⟨300, false⟩ (fun _ => none) [1, 2, 3] ⟨1, 1⟩ 0
    dmr_server_init (by decide)

/-- C9: dmr_remove_client succeeds (returns 0) exactly when a session with
the endpoint exists; on success the session is deleted from the snapshot and
a disconnect event for it is emitted (when the sink is enabled); on an
unknown endpoint it returns -1 and changes nothing. -/
theorem remove_client_contract (cfg : Config) (addr : Endpoint)
    (s : ServerState) :
    ((dmr_remove_client cfg addr s).2.1 = 0 ↔
      addr ∈ activeEndpoints s.clients) ∧
    (addr ∉ activeEndpoints s.clients →
      dmr_remove_client cfg addr s = (s, -1, [])) ∧
    (addr ∈ activeEndpoints s.clients →
      activeEndpoints (dmr_remove_client cfg addr s).1.clients =
        (activeEndpoints s.clients).erase addr ∧
      ((activeEndpoints s.clients).Nodup →
        addr ∉ activeEndpoints (dmr_remove_client cfg addr s).1.clients) ∧
      (cfg.db_enabled = true → ∃ d,
        DbEvent.disconnect addr d ∈ (dmr_remove_client cfg addr s).2.2)) := by
  rcases hr : removeClientAux addr s.clients with _ | p
  · have hmem := (removeClientAux_none_iff addr s.clients).mp hr
    simp only [dmr_remove_client, hr]
    refine ⟨by simp [hmem], fun _ => trivial, fun hin => absurd hin hmem⟩
  · obtain ⟨cs', c⟩ := p
    obtain ⟨-, -, haddr, herase, -, hmem⟩ := removeClientAux_some addr _ _ _ hr
    simp only [dmr_remove_client, hr]
    refine ⟨by simp [hmem], fun hnin => absurd hmem hnin, fun _ => ?_⟩
    refine ⟨herase, ?_, ?_⟩
    · intro hnd
      rw [herase]
      exact hnd.not_mem_erase
    · intro hdb
      exact ⟨c.dmr_id, by simp [hdb, haddr]⟩

/-- Witness for C9 on the sample registry: removing client A succeeds and
emits its disconnect event; removing an unknown endpoint is a no-op. -/
theorem remove_client_contract_witness :
    ((dmr_remove_client ⟨300, true⟩ ⟨1, 1⟩ sampleState).2.1 = 0) ∧
    (∃ d, DbEvent.disconnect ⟨1, 1⟩ d ∈
      (dmr_remove_client ⟨300, true⟩ ⟨1, 1⟩ sampleState).2.2) ∧
    dmr_remove_client ⟨300, true⟩ ⟨9, 9⟩ sampleState =
      (sampleState, -1, []) := by
  have h1 := remove_client_contract ⟨300, true⟩ ⟨1, 1⟩ sampleState
  have h2 := remove_client_contract ⟨300, true⟩ ⟨9, 9⟩ sampleState
  exact ⟨h1.1.mpr (by decide), ((h1.2.2 (by decide)).2.2 (by decide)),
    h2.2.1 (by decide)⟩

end DmrServer
